import Mathlib

/-!
Shallow embedding of cachelib's RedisCache (src/cachelib/redis.py): the
value codec (dump_object / load_object), timeout normalization, the
constructor checks, and the cache operations over a model of the redis
client, together with proofs of the specified properties.
-/

namespace Cachelib

/-- Python values relevant to the codec: the model of the values the
generic (pickle) serializer supports, carrying the runtime types the codec
dispatches on (exact int versus everything else; booleans are a distinct
runtime type even though they are integer-valued). -/
inductive Value where
  | pyNone : Value
  | pyBool : Bool → Value
  | pyInt : Int → Value
  | pyBytes : List Nat → Value
  deriving DecidableEq

/-- Python exceptions, other than pickle.PickleError, that the modelled
externals can raise through load_object. -/
inductive PyExc where
  | eofError : PyExc
  deriving DecidableEq

/-- ASCII digit test (codes 48..57). -/
def isDigitB (b : Nat) : Bool := 48 ≤ b && b ≤ 57

/-- Accumulate one ASCII decimal digit onto a value. -/
def stepD (a d : Nat) : Nat := a * 10 + (d - 48)

/-- Fuel-indexed decimal expansion (ASCII codes, most significant digit
first); structural in the fuel so that terms reduce in the kernel. -/
def natDigitsF : Nat → Nat → List Nat
  | 0, _ => []
  | fuel + 1, n => if n < 10 then [48 + n] else natDigitsF fuel (n / 10) ++ [48 + n % 10]

/-- ASCII decimal digits of a natural number, as Python str produces. -/
def natDigits (n : Nat) : List Nat := natDigitsF (n + 1) n

/-- Model of Python str(value).encode("ascii") for an int: an optional
minus sign followed by decimal digits. -/
def strOfIntAscii (n : Int) : List Nat :=
  if n < 0 then 0x2D :: natDigits n.natAbs else natDigits n.toNat

/-- ASCII whitespace bytes stripped by Python int(): space, tab, newline,
vertical tab, form feed, carriage return. -/
def isSpaceB (b : Nat) : Bool := b = 32 || b = 9 || b = 10 || b = 11 || b = 12 || b = 13

/-- Strip ASCII whitespace from both ends of a byte list. -/
def stripWs (bs : List Nat) : List Nat :=
  ((bs.dropWhile isSpaceB).reverse.dropWhile isSpaceB).reverse

/-- Digit run continuation for the Python integer grammar: after a digit,
another digit, or a single underscore that must be followed by a digit. -/
def digitsUndAux : Nat → List Nat → Option Nat
  | acc, [] => some acc
  | acc, [d] => if isDigitB d then some (stepD acc d) else none
  | acc, d :: d2 :: rest =>
    if isDigitB d then digitsUndAux (stepD acc d) (d2 :: rest)
    else if d = 0x5F then
      if isDigitB d2 then digitsUndAux (stepD acc d2) rest else none
    else none

/-- Nonempty ASCII digit run with single underscores allowed between
digits (the Python integer-literal digit grammar). -/
def digitsUnd : List Nat → Option Nat
  | [] => none
  | d :: rest => if isDigitB d then digitsUndAux (stepD 0 d) rest else none

/-- Model of the external CPython builtin int() applied to a bytes object:
optional surrounding ASCII whitespace, an optional single plus or minus
sign, then a nonempty ASCII digit run with single underscores allowed
between digits. Returns none where CPython raises ValueError. -/
def pyIntParse (bs : List Nat) : Option Int :=
  match stripWs bs with
  | 0x2B :: ds => (digitsUnd ds).map (fun m => (m : Int))
  | 0x2D :: ds => (digitsUnd ds).map (fun m => -(m : Int))
  | ds => (digitsUnd ds).map (fun m => (m : Int))

/-- Outcome of the external pickle.loads: a value, a pickle.PickleError
(the class load_object catches), or an unrelated exception such as
EOFError (which load_object does not catch). -/
inductive PickleOutcome where
  | ok : Value → PickleOutcome
  | errPickle : PickleOutcome
  | errOther : PyExc → PickleOutcome
  deriving DecidableEq

/-- Strict digit-run accumulator (no underscores), used by the pickle
blob model. -/
def parseDigitsAux : Nat → List Nat → Option Nat
  | acc, [] => some acc
  | acc, d :: rest => if isDigitB d then parseDigitsAux (stepD acc d) rest else none

/-- Nonempty strict ASCII digit run. -/
def parseDigits : List Nat → Option Nat
  | [] => none
  | d :: rest => if isDigitB d then parseDigitsAux (stepD 0 d) rest else none

/-- Strict signed decimal decoding used inside the pickle blob model. -/
def intDecode (bs : List Nat) : Option Int :=
  match bs with
  | 0x2D :: ds => (parseDigits ds).map (fun m => -(m : Int))
  | ds => (parseDigits ds).map (fun m => (m : Int))

/-- Model of the external pickle.dumps: an injective tagged byte encoding
of the supported values. The concrete opcodes are opaque to the cache
layer; only injectivity and the loads inverse matter to it. -/
def pickleDumps : Value → List Nat
  | .pyNone => [0]
  | .pyBool false => [1, 0]
  | .pyBool true => [1, 1]
  | .pyInt n => 2 :: strOfIntAscii n
  | .pyBytes bs => 3 :: bs

/-- Model of the external pickle.loads. CPython raises EOFError - not a
pickle.PickleError - on empty (truncated) input; a malformed opcode stream
raises pickle.UnpicklingError, which is a PickleError. -/
def pickleLoads : List Nat → PickleOutcome
  | [] => .errOther .eofError
  | 0 :: [] => .ok .pyNone
  | 1 :: [0] => .ok (.pyBool false)
  | 1 :: [1] => .ok (.pyBool true)
  | 2 :: rest =>
    match intDecode rest with
    | some n => .ok (.pyInt n)
    | none => .errPickle
  | 3 :: rest => .ok (.pyBytes rest)
  | _ => .errPickle

/-- RedisCache.dump_object: a value whose runtime type is exactly int is
written as plain ASCII decimal text; every other value (booleans included)
is written as the 0x21 tag byte followed by its pickle serialization. -/
def dump_object : Value → List Nat
  | .pyInt n => strOfIntAscii n
  | v => 0x21 :: pickleDumps v

/-- RedisCache.load_object: None maps to None; a payload starting with the
0x21 tag byte is unpickled, a pickle.PickleError yielding None and any
other exception propagating; otherwise int() is attempted, a ValueError
yielding the raw bytes unchanged. -/
def load_object (value : Option (List Nat)) : Except PyExc Value :=
  match value with
  | none => .ok .pyNone
  | some v =>
    if v.head? = some 0x21 then
      match pickleLoads v.tail with
      | .ok x => .ok x
      | .errPickle => .ok .pyNone
      | .errOther e => .error e
    else
      match pyIntParse v with
      | some n => .ok (.pyInt n)
      | none => .ok (.pyBytes v)

/-- The integer wire shape exactly as the specification words it: ASCII
decimal digits with an optional leading minus sign. Stated only for
comparison against the int() acceptance the source actually uses. -/
def digitsOptMinus (bs : List Nat) : Bool :=
  match bs with
  | 0x2D :: ds => !ds.isEmpty && ds.all isDigitB
  | ds => !ds.isEmpty && ds.all isDigitB

/-- One stored redis entry: the raw value bytes and the time-to-live
(none means no expiry). -/
structure Entry where
  val : List Nat
  ttl : Option Int
  deriving DecidableEq

/-- One client call issued to the redis store, recorded in a trace. -/
inductive Call where
  | getC : String → Call
  | mgetC : List String → Call
  | setC : String → List Nat → Call
  | setexC : String → List Nat → Int → Call
  | setnxC : String → List Nat → Call
  | expireC : String → Int → Call
  | delC : List String → Call
  deriving DecidableEq

/-- Model of the redis database plus the trace of client calls issued. -/
structure RedisState where
  db : List (String × Entry)
  trace : List Call
  deriving DecidableEq

/-- Look up a key in the association-list database. -/
def dbGet (db : List (String × Entry)) (k : String) : Option Entry :=
  match db with
  | [] => none
  | (k1, e) :: rest => if k1 = k then some e else dbGet rest k

/-- Store an entry under a key, replacing any existing binding. -/
def dbSet (db : List (String × Entry)) (k : String) (e : Entry) : List (String × Entry) :=
  match db with
  | [] => [(k, e)]
  | (k1, e1) :: rest => if k1 = k then (k, e) :: rest else (k1, e1) :: dbSet rest k e

/-- Remove a key from the database. -/
def dbDel (db : List (String × Entry)) (k : String) : List (String × Entry) :=
  match db with
  | [] => []
  | (k1, e1) :: rest => if k1 = k then dbDel rest k else (k1, e1) :: dbDel rest k

/-- Redis GET: the raw bytes stored under a key, if present. -/
def clientGet (st : RedisState) (k : String) : Option (List Nat) × RedisState :=
  ((dbGet st.db k).map Entry.val, { st with trace := st.trace ++ [.getC k] })

/-- Redis MGET: one optional raw value per key, in key order. -/
def clientMget (st : RedisState) (ks : List String) : List (Option (List Nat)) × RedisState :=
  (ks.map (fun k => (dbGet st.db k).map Entry.val), { st with trace := st.trace ++ [.mgetC ks] })

/-- Redis SET: store without expiry, acknowledging with true. -/
def clientSet (st : RedisState) (k : String) (v : List Nat) : Bool × RedisState :=
  (true, { db := dbSet st.db k ⟨v, none⟩, trace := st.trace ++ [.setC k v] })

/-- Redis SETEX: store with the given expiry, acknowledging with true. -/
def clientSetex (st : RedisState) (k : String) (v : List Nat) (t : Int) : Bool × RedisState :=
  (true, { db := dbSet st.db k ⟨v, some t⟩, trace := st.trace ++ [.setexC k v t] })

/-- Redis SETNX: store (without expiry) only if the key is absent;
returns whether the store happened. -/
def clientSetnx (st : RedisState) (k : String) (v : List Nat) : Bool × RedisState :=
  match dbGet st.db k with
  | some _ => (false, { st with trace := st.trace ++ [.setnxC k v] })
  | none => (true, { db := dbSet st.db k ⟨v, none⟩, trace := st.trace ++ [.setnxC k v] })

/-- Redis EXPIRE: record the given time-to-live on an existing key and
return true; return false on a missing key. -/
def clientExpire (st : RedisState) (k : String) (t : Int) : Bool × RedisState :=
  match dbGet st.db k with
  | some e => (true, { db := dbSet st.db k ⟨e.val, some t⟩, trace := st.trace ++ [.expireC k t] })
  | none => (false, { st with trace := st.trace ++ [.expireC k t] })

/-- Sequentially delete a list of keys, counting how many were present. -/
def dbDelMany (db : List (String × Entry)) (ks : List String) : Nat × List (String × Entry) :=
  match ks with
  | [] => (0, db)
  | k :: rest =>
    let hit := if (dbGet db k).isSome then 1 else 0
    let r := dbDelMany (dbDel db k) rest
    (hit + r.1, r.2)

/-- Redis DEL with several keys: removes them and returns how many
existed. -/
def clientDel (st : RedisState) (ks : List String) : Nat × RedisState :=
  let r := dbDelMany st.db ks
  (r.1, { db := r.2, trace := st.trace ++ [.delC ks] })

/-- Backend configuration surviving construction: the default timeout and
the key prefix. -/
structure CacheCfg where
  default_timeout : Int
  key_prefix : String
  deriving DecidableEq

/-- Modelled from the spec: BaseCache normalization (cachelib/base.py is
not among the sources) substitutes the configured default when the
timeout argument is unspecified: "if timeout is unspecified, substitute
defaultTimeoutSeconds". -/
def baseNormalizeTimeout (cfg : CacheCfg) (timeout : Option Int) : Int :=
  timeout.getD cfg.default_timeout

/-- RedisCache normalization: after the base substitution, a timeout of
exactly 0 becomes the no-expiry sentinel -1. -/
def normalizeTimeout (cfg : CacheCfg) (timeout : Option Int) : Int :=
  let t := baseNormalizeTimeout cfg timeout
  if t = 0 then -1 else t

/-- Key prefixing as written in get_many and delete_many: map the prefix
over the keys when a prefix is configured, otherwise copy the list. -/
def prefixedKeys (cfg : CacheCfg) (ks : List String) : List String :=
  if CacheCfg.key_prefix cfg ≠ "" then ks.map (fun k => CacheCfg.key_prefix cfg ++ k) else ks

/-- RedisCache.get: fetch the prefixed key and decode. -/
def cacheGet (cfg : CacheCfg) (st : RedisState) (k : String) :
    Except PyExc Value × RedisState :=
  let r := clientGet st (CacheCfg.key_prefix cfg ++ k)
  (load_object r.1, r.2)

/-- RedisCache.get_many: prefix the keys, issue one MGET, decode each
result independently. -/
def get_many (cfg : CacheCfg) (st : RedisState) (ks : List String) :
    List (Except PyExc Value) × RedisState :=
  let r := clientMget st (prefixedKeys cfg ks)
  (r.1.map load_object, r.2)

/-- RedisCache.set: normalize the timeout and encode the value; on the
no-expiry sentinel issue SET, otherwise SETEX with the normalized
seconds; return the store acknowledgement. -/
def cacheSet (cfg : CacheCfg) (st : RedisState) (k : String) (v : Value)
    (timeout : Option Int) : Bool × RedisState :=
  let t := normalizeTimeout cfg timeout
  let dump := dump_object v
  if t = -1 then clientSet st (CacheCfg.key_prefix cfg ++ k) dump
  else clientSetex st (CacheCfg.key_prefix cfg ++ k) dump t

/-- RedisCache.add: SETNX, and only when that stored the key (Python
and-shortcircuit) a separate EXPIRE with the normalized timeout; the
result is the conjunction of the two acknowledgements. -/
def cacheAdd (cfg : CacheCfg) (st : RedisState) (k : String) (v : Value)
    (timeout : Option Int) : Bool × RedisState :=
  let t := normalizeTimeout cfg timeout
  let dump := dump_object v
  let r1 := clientSetnx st (CacheCfg.key_prefix cfg ++ k) dump
  if r1.1 then clientExpire r1.2 (CacheCfg.key_prefix cfg ++ k) t
  else r1

/-- RedisCache.delete_many: with no keys return None without touching the
store; otherwise issue one multi-key DEL on the prefixed keys and return
its count. -/
def delete_many (cfg : CacheCfg) (st : RedisState) (ks : List String) :
    Option Nat × RedisState :=
  if ks = [] then (none, st)
  else
    let r := clientDel st (prefixedKeys cfg ks)
    (some r.1, r.2)

/-- The host argument of the constructor: Python None, a string address,
or an object resembling a redis.Redis client. -/
inductive HostArg where
  | noneHost : HostArg
  | strHost : String → HostArg
  | objHost : HostArg
  deriving DecidableEq

/-- Configuration errors the constructor raises. -/
inductive InitError where
  | hostNone : InitError
  | decodeResponses : InitError
  deriving DecidableEq

/-- A constructed store client handle (from a string address). -/
structure ClientHandle where
  host : String
  port : Int
  db : Int
  deriving DecidableEq

/-- The object state RedisCache.init leaves behind: the base
configuration, the key prefix, and the client attribute, which is none
when the constructor never assigned it. -/
structure CacheObj where
  default_timeout : Int
  key_prefix : String
  client : Option ClientHandle
  deriving DecidableEq

/-- RedisCache constructor: a None host raises ValueError; for a string
host, a truthy decode_responses passthrough option raises ValueError and
otherwise a client handle is built; for a non-string host object the
string branch is skipped entirely, so no option check runs and the client
attribute is never assigned (the redis import always succeeding is
assumed). The key prefix defaults to the empty string. -/
def cacheInit (host : HostArg) (port : Int) (db : Int) (default_timeout : Int)
    ( key_prefix : Option String) (decodeResponses : Bool) : Except InitError CacheObj :=
  match host with
  | .noneHost => .error .hostNone
  | .strHost s =>
    if decodeResponses then .error .decodeResponses
    else .ok ⟨default_timeout, key_prefix.getD "", some ⟨s, port, db⟩⟩
  | .objHost => .ok ⟨default_timeout, key_prefix.getD "", none⟩

/-! ### Helper lemmas on digits and parsing -/

theorem natDigitsF_foldl (fuel : Nat) :
    ∀ n acc, n < fuel →
      List.foldl stepD acc (natDigitsF fuel n) = acc * 10 ^ (natDigitsF fuel n).length + n := by
  induction fuel with
  | zero => intro n acc h; omega
  | succ fuel ih =>
    intro n acc h
    by_cases h10 : n < 10
    · simp [natDigitsF, h10, stepD]
    · have hdiv : n / 10 < fuel := by
        have h1 : n / 10 < n := Nat.div_lt_self (by omega) (by omega)
        omega
      simp only [natDigitsF, if_neg h10, List.foldl_append, List.length_append,
        List.foldl_cons, List.foldl_nil, List.length_cons, List.length_nil]
      rw [ih (n / 10) acc hdiv]
      unfold stepD
      have he : 48 + n % 10 - 48 = n % 10 := by omega
      rw [he]
      calc (acc * 10 ^ (natDigitsF fuel (n / 10)).length + n / 10) * 10 + n % 10
          = acc * (10 ^ (natDigitsF fuel (n / 10)).length * 10) + (10 * (n / 10) + n % 10) := by
            ring
        _ = acc * 10 ^ ((natDigitsF fuel (n / 10)).length + 0 + 1) + n := by
            rw [Nat.div_add_mod]
            ring_nf

theorem natDigitsF_digits (fuel : Nat) :
    ∀ n, n < fuel → ∀ b ∈ natDigitsF fuel n, 48 ≤ b ∧ b ≤ 57 := by
  induction fuel with
  | zero => intro n h; omega
  | succ fuel ih =>
    intro n h b hb
    by_cases h10 : n < 10
    · simp [natDigitsF, h10] at hb
      omega
    · have hdiv : n / 10 < fuel := by
        have h1 : n / 10 < n := Nat.div_lt_self (by omega) (by omega)
        omega
      simp [natDigitsF, h10] at hb
      rcases hb with hb | hb
      · exact ih (n / 10) hdiv b hb
      · have hm : n % 10 < 10 := Nat.mod_lt _ (by omega)
        omega

theorem natDigitsF_ne_nil (fuel n : Nat) (h : n < fuel) : natDigitsF fuel n ≠ [] := by
  cases fuel with
  | zero => omega
  | succ fuel => by_cases h10 : n < 10 <;> simp [natDigitsF, h10]

theorem natDigits_foldl (n : Nat) : List.foldl stepD 0 (natDigits n) = n := by
  have h := natDigitsF_foldl (n + 1) n 0 (by omega)
  simpa [natDigits] using h

theorem natDigits_digits (n : Nat) : ∀ b ∈ natDigits n, 48 ≤ b ∧ b ≤ 57 :=
  natDigitsF_digits (n + 1) n (by omega)

theorem natDigits_ne_nil (n : Nat) : natDigits n ≠ [] :=
  natDigitsF_ne_nil (n + 1) n (by omega)

theorem isDigitB_of_bound (b : Nat) (h : 48 ≤ b ∧ b ≤ 57) : isDigitB b = true := by
  simp only [isDigitB, Bool.and_eq_true, decide_eq_true_eq]
  omega

theorem parseDigitsAux_all_digits (ds : List Nat) :
    ∀ acc, (∀ b ∈ ds, isDigitB b = true) →
      parseDigitsAux acc ds = some (ds.foldl stepD acc) := by
  induction ds with
  | nil => intro acc _; rfl
  | cons d rest ih =>
    intro acc h
    have hd : isDigitB d = true := h d (by simp)
    simp only [parseDigitsAux, hd, if_true, List.foldl_cons]
    exact ih _ (fun b hb => h b (by simp [hb]))

theorem parseDigits_all_digits (ds : List Nat) (hne : ds ≠ [])
    (h : ∀ b ∈ ds, isDigitB b = true) : parseDigits ds = some (ds.foldl stepD 0) := by
  cases ds with
  | nil => exact absurd rfl hne
  | cons d rest =>
    have hd : isDigitB d = true := h d (by simp)
    simp only [parseDigits, hd, if_true, List.foldl_cons]
    exact parseDigitsAux_all_digits rest _ (fun b hb => h b (by simp [hb]))

theorem digitsUndAux_all_digits (ds : List Nat) :
    ∀ acc, (∀ b ∈ ds, isDigitB b = true) →
      digitsUndAux acc ds = some (ds.foldl stepD acc) := by
  induction ds with
  | nil => intro acc _; rfl
  | cons d rest ih =>
    intro acc h
    have hd : isDigitB d = true := h d (by simp)
    cases rest with
    | nil => simp [digitsUndAux, hd, stepD]
    | cons d2 rest2 =>
      rw [show digitsUndAux acc (d :: d2 :: rest2) = digitsUndAux (stepD acc d) (d2 :: rest2)
        from by simp [digitsUndAux, hd]]
      rw [List.foldl_cons]
      exact ih _ (fun b hb => h b (List.mem_cons_of_mem d hb))

theorem digitsUnd_all_digits (ds : List Nat) (hne : ds ≠ [])
    (h : ∀ b ∈ ds, isDigitB b = true) : digitsUnd ds = some (ds.foldl stepD 0) := by
  cases ds with
  | nil => exact absurd rfl hne
  | cons d rest =>
    have hd : isDigitB d = true := h d (by simp)
    simp only [digitsUnd, hd, if_true, List.foldl_cons]
    exact digitsUndAux_all_digits rest _ (fun b hb => h b (by simp [hb]))

theorem parseDigits_natDigits (n : Nat) : parseDigits (natDigits n) = some n := by
  rw [parseDigits_all_digits _ (natDigits_ne_nil n)
    (fun b hb => isDigitB_of_bound b (natDigits_digits n b hb)), natDigits_foldl]

theorem digitsUnd_natDigits (n : Nat) : digitsUnd (natDigits n) = some n := by
  rw [digitsUnd_all_digits _ (natDigits_ne_nil n)
    (fun b hb => isDigitB_of_bound b (natDigits_digits n b hb)), natDigits_foldl]

theorem dropWhile_eq_self_of (p : Nat → Bool) (bs : List Nat)
    (h : ∀ b ∈ bs, p b = false) : bs.dropWhile p = bs := by
  cases bs with
  | nil => rfl
  | cons a l => simp [List.dropWhile_cons, h a (List.mem_cons_self a l)]

theorem stripWs_eq_self (bs : List Nat) (h : ∀ b ∈ bs, isSpaceB b = false) :
    stripWs bs = bs := by
  unfold stripWs
  rw [dropWhile_eq_self_of _ _ h,
    dropWhile_eq_self_of _ _ (fun b hb => h b (List.mem_reverse.mp hb)),
    List.reverse_reverse]

theorem not_space_of_ge (b : Nat) (h : 45 ≤ b) : isSpaceB b = false := by
  simp only [isSpaceB, Bool.or_eq_false_iff, decide_eq_false_iff_not]
  omega

theorem strOfIntAscii_bytes (n : Int) : ∀ b ∈ strOfIntAscii n, 45 ≤ b ∧ b ≤ 57 := by
  intro b hb
  unfold strOfIntAscii at hb
  by_cases hneg : n < 0
  · rw [if_pos hneg] at hb
    rcases List.mem_cons.mp hb with hb | hb
    · omega
    · have := natDigits_digits n.natAbs b hb
      omega
  · rw [if_neg hneg] at hb
    have := natDigits_digits n.toNat b hb
    omega

theorem strOfIntAscii_head_ne_bang (n : Int) : (strOfIntAscii n).head? ≠ some 0x21 := by
  intro hc
  cases hl : strOfIntAscii n with
  | nil => rw [hl] at hc; simp at hc
  | cons d l =>
    rw [hl] at hc
    simp only [List.head?_cons, Option.some.injEq] at hc
    have hd : 45 ≤ d ∧ d ≤ 57 := strOfIntAscii_bytes n d (by rw [hl]; simp)
    omega

theorem pyIntParse_strOfIntAscii (n : Int) : pyIntParse (strOfIntAscii n) = some n := by
  have hs : stripWs (strOfIntAscii n) = strOfIntAscii n :=
    stripWs_eq_self _ (fun b hb => not_space_of_ge b (strOfIntAscii_bytes n b hb).1)
  unfold pyIntParse
  rw [hs]
  by_cases hneg : n < 0
  · rw [show strOfIntAscii n = 0x2D :: natDigits n.natAbs from by
      simp [strOfIntAscii, hneg]]
    split
    · rename_i ds heq
      injection heq with h1 h2
      omega
    · rename_i ds heq
      injection heq with h1 h2
      rw [← h2, digitsUnd_natDigits]
      show some (-((n.natAbs : Nat) : Int)) = some n
      rw [show -((n.natAbs : Nat) : Int) = n from by omega]
    · rename_i h1 h2
      exact absurd rfl (h2 (natDigits n.natAbs))
  · obtain ⟨d, l, hdl⟩ : ∃ d l, natDigits n.toNat = d :: l := by
      cases hnd : natDigits n.toNat with
      | nil => exact absurd hnd (natDigits_ne_nil _)
      | cons d l => exact ⟨d, l, rfl⟩
    have hd48 : 48 ≤ d ∧ d ≤ 57 := natDigits_digits n.toNat d (by rw [hdl]; simp)
    rw [show strOfIntAscii n = natDigits n.toNat from by simp [strOfIntAscii, hneg], hdl]
    split
    · rename_i ds heq
      injection heq with h1 h2
      omega
    · rename_i ds heq
      injection heq with h1 h2
      omega
    · rw [← hdl, digitsUnd_natDigits]
      show some ((n.toNat : Int)) = some n
      rw [show ((n.toNat : Int)) = n from by omega]

theorem intDecode_strOfIntAscii (n : Int) : intDecode (strOfIntAscii n) = some n := by
  unfold intDecode
  by_cases hneg : n < 0
  · rw [show strOfIntAscii n = 0x2D :: natDigits n.natAbs from by
      simp [strOfIntAscii, hneg]]
    split
    · rename_i ds heq
      injection heq with h1 h2
      rw [← h2, parseDigits_natDigits]
      show some (-((n.natAbs : Nat) : Int)) = some n
      rw [show -((n.natAbs : Nat) : Int) = n from by omega]
    · rename_i h1
      exact absurd rfl (h1 (natDigits n.natAbs))
  · obtain ⟨d, l, hdl⟩ : ∃ d l, natDigits n.toNat = d :: l := by
      cases hnd : natDigits n.toNat with
      | nil => exact absurd hnd (natDigits_ne_nil _)
      | cons d l => exact ⟨d, l, rfl⟩
    have hd48 : 48 ≤ d ∧ d ≤ 57 := natDigits_digits n.toNat d (by rw [hdl]; simp)
    rw [show strOfIntAscii n = natDigits n.toNat from by simp [strOfIntAscii, hneg], hdl]
    split
    · rename_i ds heq
      injection heq with h1 h2
      omega
    · rw [← hdl, parseDigits_natDigits]
      show some ((n.toNat : Int)) = some n
      rw [show ((n.toNat : Int)) = n from by omega]

theorem pickle_roundtrip (v : Value) : pickleLoads (pickleDumps v) = .ok v := by
  cases v with
  | pyNone => rfl
  | pyBool b => cases b <;> rfl
  | pyInt n =>
    show pickleLoads (2 :: strOfIntAscii n) = .ok (.pyInt n)
    simp [pickleLoads, intDecode_strOfIntAscii]
  | pyBytes bs =>
    show pickleLoads (3 :: bs) = .ok (.pyBytes bs)
    simp [pickleLoads]

theorem load_object_tagged (v : Value) :
    load_object (some (0x21 :: pickleDumps v)) = .ok v := by
  simp [load_object, pickle_roundtrip v]

/-! ### Helper lemmas on the store model -/

theorem dbGet_dbSet_same (db : List (String × Entry)) (k : String) (e : Entry) :
    dbGet (dbSet db k e) k = some e := by
  induction db with
  | nil => simp [dbSet, dbGet]
  | cons p rest ih =>
    obtain ⟨k1, e1⟩ := p
    by_cases h : k1 = k
    · simp [dbSet, dbGet, h]
    · simp [dbSet, dbGet, h, ih]

theorem dbDel_absent (db : List (String × Entry)) (k : String)
    (h : dbGet db k = none) : dbDel db k = db := by
  induction db with
  | nil => rfl
  | cons p rest ih =>
    obtain ⟨k1, e1⟩ := p
    by_cases hk : k1 = k
    · simp [dbGet, hk] at h
    · simp only [dbGet, if_neg hk] at h
      simp [dbDel, hk, ih h]

theorem prefixedKeys_eq_map (cfg : CacheCfg) (ks : List String) :
    prefixedKeys cfg ks = ks.map (fun k => CacheCfg.key_prefix cfg ++ k) := by
  unfold prefixedKeys
  by_cases h : CacheCfg.key_prefix cfg = ""
  · have hfun : (fun (k : String) => CacheCfg.key_prefix cfg ++ k) = fun k => k := by
      funext k
      rw [h]
      rfl
    rw [if_neg (by simp [h]), hfun]
    simp
  · simp [h]

/-! ### Claim theorems -/

/-- Claim C1: codec round-trip. For every value whose runtime type is
exactly int, and for every value the generic (pickle) serializer
supports, decoding the encoding returns the value. -/
theorem load_dump_roundtrip (v : Value) :
    load_object (some (dump_object v)) = .ok v := by
  cases v with
  | pyInt n =>
    show load_object (some (strOfIntAscii n)) = .ok (.pyInt n)
    simp [load_object, strOfIntAscii_head_ne_bang n, pyIntParse_strOfIntAscii n]
  | pyNone => exact load_object_tagged .pyNone
  | pyBool b => exact load_object_tagged (.pyBool b)
  | pyBytes bs => exact load_object_tagged (.pyBytes bs)

/-- Claim C2 counterexample: the payload consisting of the tag byte alone
makes pickle.loads see empty input, which raises EOFError; load_object
catches only pickle.PickleError, so decode raises instead of returning
the no-value result. -/
theorem load_object_bang_raises :
    load_object (some [0x21]) = Except.error PyExc.eofError
    ∧ load_object (some [0x21]) ≠ Except.ok Value.pyNone := by
  constructor
  · rfl
  · intro h
    rw [show load_object (some [0x21]) = Except.error PyExc.eofError from rfl] at h
    exact Except.noConfusion h

/-- Claim C2 amended: load_object returns a value on None input, on every
untagged input, and on every tagged input whose deserialization failure
is a pickle.PickleError (mapped to the no-value result); the only way it
raises is a tagged payload whose deserialization raises an exception
outside pickle.PickleError, such as EOFError on truncated input. -/
theorem load_object_raises_only_nonpickle (v : Option (List Nat)) :
    (∃ x, load_object v = .ok x) ∨
      (∃ rest e, v = some (0x21 :: rest) ∧ pickleLoads rest = .errOther e
        ∧ load_object v = .error e) := by
  match v with
  | none => exact .inl ⟨.pyNone, rfl⟩
  | some bs =>
    by_cases hb : bs.head? = some 0x21
    · obtain ⟨rest, rfl⟩ : ∃ rest, bs = 0x21 :: rest := by
        cases bs with
        | nil => simp at hb
        | cons a l =>
          simp only [List.head?_cons, Option.some.injEq] at hb
          exact ⟨l, by rw [hb]⟩
      cases hpl : pickleLoads rest with
      | ok x => exact .inl ⟨x, by simp [load_object, hpl]⟩
      | errPickle => exact .inl ⟨.pyNone, by simp [load_object, hpl]⟩
      | errOther e => exact .inr ⟨rest, e, rfl, hpl, by simp [load_object, hpl]⟩
    · cases hp : pyIntParse bs with
      | some n => exact .inl ⟨.pyInt n, by simp [load_object, hb, hp]⟩
      | none => exact .inl ⟨.pyBytes bs, by simp [load_object, hb, hp]⟩

/-- Claim C3: timeout normalization substitutes the default for an
unspecified timeout, returns the no-expiry sentinel -1 exactly when the
value reached after substitution is 0, and returns any positive timeout
unchanged; stated over the supported nonnegative timeout domain, and the
function is modelled as a pure function. -/
theorem normalize_timeout_spec (cfg : CacheCfg) (t : Option Int) (n : Int)
    (hd : 0 ≤ cfg.default_timeout) (ht : ∀ x, t = some x → 0 ≤ x) (hn : 0 < n) :
    normalizeTimeout cfg none = normalizeTimeout cfg (some cfg.default_timeout)
    ∧ (normalizeTimeout cfg t = -1 ↔ baseNormalizeTimeout cfg t = 0)
    ∧ normalizeTimeout cfg (some n) = n := by
  refine ⟨rfl, ?_, ?_⟩
  · have hbase : 0 ≤ baseNormalizeTimeout cfg t := by
      cases t with
      | none => simpa [baseNormalizeTimeout] using hd
      | some x => simpa [baseNormalizeTimeout] using ht x rfl
    rw [show normalizeTimeout cfg t =
      if baseNormalizeTimeout cfg t = 0 then -1 else baseNormalizeTimeout cfg t from rfl]
    by_cases h0 : baseNormalizeTimeout cfg t = 0
    · rw [if_pos h0]
      exact ⟨fun _ => h0, fun _ => rfl⟩
    · rw [if_neg h0]
      constructor
      · intro hc
        omega
      · intro hc
        exact absurd hc h0
  · show (if n = 0 then (-1 : Int) else n) = n
    rw [if_neg (by omega)]

/-- Claim C3 witness at a concrete configuration and concrete timeouts. -/
theorem normalize_timeout_spec_witness :
    normalizeTimeout ⟨300, ""⟩ none = normalizeTimeout ⟨300, ""⟩ (some 300)
    ∧ (normalizeTimeout ⟨300, ""⟩ (some 0) = -1 ↔ baseNormalizeTimeout ⟨300, ""⟩ (some 0) = 0)
    ∧ normalizeTimeout ⟨300, ""⟩ (some 7) = 7 :=
  normalize_timeout_spec ⟨300, ""⟩ (some 0) 7 (by decide)
    (fun x hx => by injection hx with h; omega) (by decide)

/-- Claim C4: set normalizes the timeout and encodes the value, stores
under the prefixed key with no expiry exactly when the normalized timeout
is the sentinel and with the normalized seconds otherwise, issues the one
matching store call, and returns the store acknowledgement. -/
theorem set_dispatch (cfg : CacheCfg) (st : RedisState) (k : String) (v : Value)
    (t : Option Int) :
    (cacheSet cfg st k v t).1 = true
    ∧ dbGet (cacheSet cfg st k v t).2.db (CacheCfg.key_prefix cfg ++ k) =
        some ⟨dump_object v,
          if normalizeTimeout cfg t = -1 then none else some (normalizeTimeout cfg t)⟩
    ∧ (cacheSet cfg st k v t).2.trace = st.trace ++
        [if normalizeTimeout cfg t = -1
          then Call.setC (CacheCfg.key_prefix cfg ++ k) (dump_object v)
          else Call.setexC (CacheCfg.key_prefix cfg ++ k) (dump_object v) (normalizeTimeout cfg t)] := by
  by_cases hn : normalizeTimeout cfg t = -1 <;>
    simp [cacheSet, clientSet, clientSetex, hn, dbGet_dbSet_same]

/-- Claim C5: add issues SETNX and, only when that stored the key, the
separate EXPIRE with the normalized timeout, returning true only when
both succeed; on an already-present key it returns false, issues no
expire call, and leaves the database - the existing value and its TTL -
unchanged. -/
theorem add_semantics (cfg : CacheCfg) (st : RedisState) (k : String) (v : Value)
    (t : Option Int) (e : Entry) :
    (dbGet st.db (CacheCfg.key_prefix cfg ++ k) = some e →
      cacheAdd cfg st k v t =
        (false,
          { st with trace := st.trace ++ [Call.setnxC (CacheCfg.key_prefix cfg ++ k) (dump_object v)] }))
    ∧ (dbGet st.db (CacheCfg.key_prefix cfg ++ k) = none →
      (cacheAdd cfg st k v t).1 = true
      ∧ dbGet (cacheAdd cfg st k v t).2.db (CacheCfg.key_prefix cfg ++ k) =
          some ⟨dump_object v, some (normalizeTimeout cfg t)⟩
      ∧ (cacheAdd cfg st k v t).2.trace = st.trace ++
          [Call.setnxC (CacheCfg.key_prefix cfg ++ k) (dump_object v),
            Call.expireC (CacheCfg.key_prefix cfg ++ k) (normalizeTimeout cfg t)]) := by
  constructor
  · intro h
    simp [cacheAdd, clientSetnx, h]
  · intro h
    refine ⟨?_, ?_, ?_⟩ <;>
      simp [cacheAdd, clientSetnx, clientExpire, h, dbGet_dbSet_same]

/-- Claim C5 witness: add on an already-present key at a concrete state
returns false and leaves the stored entry and its TTL unchanged. -/
theorem add_semantics_witness :
    cacheAdd ⟨300, "p:"⟩ ⟨[("p:k", ⟨[48], some 5⟩)], []⟩ "k" .pyNone none =
      (false, ⟨[("p:k", ⟨[48], some 5⟩)], [Call.setnxC "p:k" (dump_object .pyNone)]⟩) :=
  (add_semantics ⟨300, "p:"⟩ ⟨[("p:k", ⟨[48], some 5⟩)], []⟩ "k" .pyNone none
    ⟨[48], some 5⟩).1 (by decide)

/-- Claim C6: get_many prefixes every key, issues exactly one MGET
preserving input order, decodes each result independently, and returns
one decoded element per requested key in the same order, with the absent
result in each missing position. -/
theorem get_many_shape (cfg : CacheCfg) (st : RedisState) (ks : List String) :
    prefixedKeys cfg ks = ks.map (fun k => CacheCfg.key_prefix cfg ++ k)
    ∧ (get_many cfg st ks).1.length = ks.length
    ∧ (∀ i : Nat, (get_many cfg st ks).1[i]? =
        (ks[i]?).map (fun k => load_object ((dbGet st.db (CacheCfg.key_prefix cfg ++ k)).map Entry.val)))
    ∧ (get_many cfg st ks).2.trace = st.trace ++ [Call.mgetC (prefixedKeys cfg ks)]
    ∧ (get_many cfg st ks).2.db = st.db := by
  refine ⟨prefixedKeys_eq_map cfg ks, ?_, ?_, rfl, rfl⟩
  · simp [get_many, clientMget, prefixedKeys_eq_map]
  · intro i
    simp only [get_many, clientMget, prefixedKeys_eq_map, List.map_map, List.getElem?_map]
    rfl

/-- Claim C7 counterexample: the bytes of "+7" are not ASCII digits with
an optional leading minus sign, yet load_object decodes them to the
integer 7 - Python int() accepts a leading plus sign - instead of
returning the raw bytes unchanged. -/
theorem load_object_plus_sign :
    load_object (some [0x2B, 0x37]) = Except.ok (Value.pyInt 7)
    ∧ digitsOptMinus [0x2B, 0x37] = false
    ∧ load_object (some [0x2B, 0x37]) ≠ Except.ok (Value.pyBytes [0x2B, 0x37]) := by
  refine ⟨rfl, rfl, ?_⟩
  intro hc
  rw [show load_object (some [0x2B, 0x37]) = Except.ok (Value.pyInt 7) from rfl] at hc
  simp at hc

/-- Claim C7 amended: for every non-None byte sequence not starting with
the tag byte, load_object returns the integer parsed under the Python
int() acceptance (optional surrounding ASCII whitespace, an optional plus
or minus sign, digits with single underscores between digits) when that
parse succeeds, and otherwise returns the raw bytes unchanged. -/
theorem load_object_legacy (bs : List Nat) (h : bs.head? ≠ some 0x21) :
    (∀ n : Int, pyIntParse bs = some n → load_object (some bs) = .ok (.pyInt n))
    ∧ (pyIntParse bs = none → load_object (some bs) = .ok (.pyBytes bs)) := by
  constructor
  · intro n hp
    simp [load_object, h, hp]
  · intro hp
    simp [load_object, h, hp]

/-- Claim C7 witness: the two digit bytes of "12" decode to the integer
12. -/
theorem load_object_legacy_witness :
    load_object (some [49, 50]) = .ok (.pyInt 12) :=
  (load_object_legacy [49, 50] (by decide)).1 12 (by decide)

/-- Claim C8: delete_many with zero keys returns None and issues no store
call, a result distinct from the count 0 returned for a missing key; with
a nonempty key list it issues one multi-key DEL on the prefixed keys and
returns that call's total removed count. -/
theorem delete_many_spec (cfg : CacheCfg) (st : RedisState) (ks : List String) (k : String) :
    delete_many cfg st [] = (none, st)
    ∧ (none : Option Nat) ≠ some 0
    ∧ (dbGet st.db (CacheCfg.key_prefix cfg ++ k) = none →
        delete_many cfg st [k] =
          (some 0, { st with trace := st.trace ++ [Call.delC [CacheCfg.key_prefix cfg ++ k]] }))
    ∧ (ks ≠ [] →
        (delete_many cfg st ks).1 = some (dbDelMany st.db (prefixedKeys cfg ks)).1
        ∧ (delete_many cfg st ks).2.trace = st.trace ++ [Call.delC (prefixedKeys cfg ks)]) := by
  refine ⟨by simp [delete_many], by simp, ?_, ?_⟩
  · intro h
    have hpk : prefixedKeys cfg [k] = [CacheCfg.key_prefix cfg ++ k] := by
      rw [prefixedKeys_eq_map]
      rfl
    simp [delete_many, clientDel, dbDelMany, hpk, h, dbDel_absent st.db _ h]
  · intro hne
    simp [delete_many, hne, clientDel]

/-- Claim C8 witness: deleting one missing key at a concrete empty store
returns the count 0, distinct from the None returned for zero keys. -/
theorem delete_many_spec_witness :
    delete_many ⟨300, "p:"⟩ ⟨[], []⟩ ["x"] = (some 0, ⟨[], [Call.delC ["p:x"]]⟩) :=
  (delete_many_spec ⟨300, "p:"⟩ ⟨[], []⟩ ["x"] "x").2.2.1 (by decide)

/-- Claim C9 exhibit: a None host and, for a string host, a truthy
decode_responses option each fail construction fast; but a non-string
host object is accepted with decode_responses set - no error - and the
construction leaves no client handle assigned, contradicting the class
docstring that accepts redis.Redis-like objects. -/
theorem init_objhost_no_client :
    cacheInit .objHost 6379 0 300 none true = .ok ⟨300, "", none⟩
    ∧ cacheInit .noneHost 6379 0 300 none false = .error .hostNone
    ∧ cacheInit (.strHost "localhost") 6379 0 300 none true = .error .decodeResponses
    ∧ cacheInit (.strHost "localhost") 6379 0 300 none false =
        .ok ⟨300, "", some ⟨"localhost", 6379, 0⟩⟩ :=
  ⟨rfl, rfl, rfl, rfl⟩

/-- Claim C10: dump_object emits plain ASCII decimal text exactly for
values of runtime type exactly int; booleans and every other value are
emitted with the 0x21 tag byte first, and no encoded integer starts with
the tag byte, so the two wire shapes never collide. -/
theorem dump_wire_shapes (v : Value) (n : Int) (b : Bool) :
    dump_object (.pyInt n) = strOfIntAscii n
    ∧ (dump_object (.pyInt n)).head? ≠ some 0x21
    ∧ (dump_object (.pyBool b)).head? = some 0x21
    ∧ ((∃ m : Int, v = .pyInt m) ↔ (dump_object v).head? ≠ some 0x21) := by
  refine ⟨rfl, strOfIntAscii_head_ne_bang n, by cases b <;> rfl, ?_⟩
  constructor
  · rintro ⟨m, rfl⟩
    exact strOfIntAscii_head_ne_bang m
  · intro hne
    cases v with
    | pyInt m => exact ⟨m, rfl⟩
    | pyNone => exact absurd rfl hne
    | pyBool bb => exact absurd rfl hne
    | pyBytes l => exact absurd rfl hne

end Cachelib
